import Mathlib

/-!
Shallow embedding of the pool / algorithm / admin layers of the
`go-load-balancer` repository, together with theorems settling the claims
about it.

Conventions of the embedding:
* Go `int32` counters are modelled as `Int` (the claims are about values far
  from the 2^31 wrap, so 32-bit overflow is irrelevant; signedness, which the
  claims are about, is kept).
* The Go `uint64` round-robin cursor wraps; its arithmetic is modelled with an
  explicit `% 2 ^ 64`.
* Go backends are heap objects referenced by pointer from the pool's slice; the
  embedding keeps the pool's backends as a `List Backend` and uses list
  positions where the Go code uses pointers.
* `url.Parse` / `URL.String()` round-tripping is modelled as the identity on
  strings: the pool only ever compares `String()` images of parsed URLs, and
  every stored URL is the image of a successful parse.
-/

namespace LB

/-- `pool.Backend` (internal/config/config.go, pool part, lines 110-120):
upstream URL, alive flag, weights, connection counter and its limit.
The `ReverseProxy` handle carries no state the claims mention and is omitted;
the per-backend mutex is the object itself in this sequential embedding. -/
structure Backend where
  url : String
  alive : Bool
  weight : Int
  currentWeight : Int
  connectionCount : Int
  maxConnections : Int
deriving Repr, DecidableEq

/-- `config.BackendConfig` (config part, lines 30-35): the fields the pool
operations read. -/
structure BackendConfig where
  url : String
  weight : Int
  maxConnections : Int
deriving Repr, DecidableEq

/-- `pool.ServerPool` (lines 122-128): backend list, atomic uint64 cursor,
pool-default max connections. -/
structure ServerPool where
  backends : List Backend
  current : Nat
  maxConnections : Int
deriving Repr, DecidableEq

/-- Modulus of the Go `uint64` cursor arithmetic. -/
def UINT64_MOD : Nat := 2 ^ 64

/-- `Backend.IncrementConnections` (lines 394-404): CAS loop that loads the
count, fails when it is at or above `MaxConnections`, and otherwise increments.
Sequentially the CAS always succeeds on the first iteration, so the loop is one
load-test-increment. Returns the Go return value and the updated backend. -/
def IncrementConnections (b : Backend) : Bool × Backend :=
  if b.connectionCount ≥ b.maxConnections then
    (false, b)
  else
    (true, { b with connectionCount := b.connectionCount + 1 })

/-- `Backend.DecrementConnections` (lines 406-408):
`atomic.AddInt32(&b.ConnectionCount, -1)`, an unconditional decrement. -/
def DecrementConnections (b : Backend) : Backend :=
  { b with connectionCount := b.connectionCount - 1 }

/-- Apply `f` to the element at position `i`, as Go mutation through the
backend pointer held in the slice does. -/
def modifyIdx {α : Type} : List α → Nat → (α → α) → List α
  | [], _, _ => []
  | x :: xs, 0, f => f x :: xs
  | x :: xs, n + 1, f => x :: modifyIdx xs n f

/-- Loop body of `ServerPool.MarkBackendStatus` (lines 274-286): set the alive
flag of the first backend whose URL string matches, leave the rest alone. -/
def markFirstByUrl (bs : List Backend) (u : String) (alive : Bool) : List Backend :=
  match bs with
  | [] => []
  | b :: rest =>
    if b.url = u then { b with alive := alive } :: rest
    else b :: markFirstByUrl rest u alive

/-- `ServerPool.MarkBackendStatus` (lines 274-286). -/
def MarkBackendStatus (s : ServerPool) (u : String) (alive : Bool) : ServerPool :=
  { s with backends := markFirstByUrl s.backends u alive }

/-- `ServerPool.GetNextPeer` (lines 263-272): increment the cursor (uint64,
wrapping), return `nil` on an empty list, otherwise the backend at
`next % len(backends)`. The returned position stands for the returned backend
pointer `s.backends[next % l]`. The cursor is bumped before the length check,
exactly as `atomic.AddUint64` runs first in the source. -/
def GetNextPeer (s : ServerPool) : ServerPool × Option Nat :=
  let next := (s.current + 1) % UINT64_MOD
  let s' := { s with current := next }
  if s.backends.length = 0 then (s', none)
  else (s', some (next % s.backends.length))

/-- `ServerPool.GetNextProxy` (lines 348-354): take `GetNextPeer`; on a hit,
`atomic.AddInt32(&backend.ConnectionCount, 1)` — an unconditional increment
with no capacity check — and return that backend's proxy (modelled as the
backend's position). -/
def GetNextProxy (s : ServerPool) : ServerPool × Option Nat :=
  match GetNextPeer s with
  | (s', some i) =>
    ({ s' with
        backends := modifyIdx s'.backends i
          (fun b => { b with connectionCount := b.connectionCount + 1 }) },
      some i)
  | (s', none) => (s', none)

/-- Loop of `ServerPool.RemoveBackend` (lines 252-258): drop the first backend
whose URL string matches, `none` when there is no match. -/
def removeFirstByUrl (bs : List Backend) (u : String) : Option (List Backend) :=
  match bs with
  | [] => none
  | b :: rest =>
    if b.url = u then some rest
    else (removeFirstByUrl rest u).map (b :: ·)

/-- `ServerPool.RemoveBackend` (lines 243-261): parse the URL (total in this
embedding, see the file header), remove the first exact match, and return
`errors.New("backend not found")` when no backend matches. On the error path
the Go method leaves `s.backends` untouched, which the `Except` result models
by carrying no pool. -/
def RemoveBackend (s : ServerPool) (u : String) : Except String ServerPool :=
  match removeFirstByUrl s.backends u with
  | some bs => .ok { s with backends := bs }
  | none => .error "backend not found"

/-- Lookup loop of `ServerPool.UpdateBackends` (lines 320-326): first backend
of the current list with a matching URL string. -/
def findByUrl (bs : List Backend) (u : String) : Option Backend :=
  match bs with
  | [] => none
  | b :: rest => if b.url = u then some b else findByUrl rest u

/-- Fresh backend built in the `else` branch of `UpdateBackends`
(lines 333-339): alive, weight from the config, every omitted field at its Go
zero value (in particular `MaxConnections = 0`). -/
def freshUpdateBackend (cfg : BackendConfig) : Backend :=
  { url := cfg.url
    alive := true
    weight := cfg.weight
    currentWeight := 0
    connectionCount := 0
    maxConnections := 0 }

/-- Loop of `ServerPool.UpdateBackends` (lines 311-342): for each config entry
in order, reuse the first existing backend with the same URL after assigning
`existing.Weight = cfg.Weight`, otherwise append a fresh alive backend.
(The embedding keeps backends as values, so the pointer aliasing that arises
when two identical config URLs match the same existing backend is not
modelled; the claims do not involve duplicate config URLs.) -/
def updateLoop (old : List Backend) : List BackendConfig → List Backend
  | [] => []
  | cfg :: rest =>
    (match findByUrl old cfg.url with
     | some b => { b with weight := cfg.weight }
     | none => freshUpdateBackend cfg) :: updateLoop old rest

/-- `ServerPool.UpdateBackends` (lines 307-346): replace the backend list with
the list built by `updateLoop` over the incoming configs. URL parsing is total
in this embedding, so the early-error path does not arise. -/
def UpdateBackends (s : ServerPool) (configs : List BackendConfig) : ServerPool :=
  { s with backends := updateLoop s.backends configs }

/-- `GetRetryFromContext` (lines 411-416): the `RetryKey` value stored in the
request context, `0` when absent. The request context is modelled by the
optional stored value. -/
def GetRetryFromContext (ctxRetry : Option Int) : Int :=
  ctxRetry.getD 0

/-- Outcome of the `ErrorHandler` closure: a retry served through some
backend's proxy (identified by its pool position), the 503 answer, or a return
without writing any response. -/
inductive EHResult where
  | served (i : Nat)
  | error503
  | noResponse
deriving Repr, DecidableEq

/-- The `ErrorHandler` closure installed by `ServerPool.AddBackend`
(lines 204-220): mark the failed backend's URL not-alive, read the retry count
from the request context, and when it is below 3 and the request context is
not done, serve through `GetNextProxy`, answering 503 only when that returns
`nil`; when the count is 3 or more, or the context is done, return without
writing a response. Nothing on this path decrements any connection count, and
nothing stores an incremented retry count back into the context. -/
def ErrorHandler (s : ServerPool) (failedUrl : String) (ctxRetry : Option Int)
    (ctxDone : Bool) : ServerPool × EHResult :=
  let s1 := MarkBackendStatus s failedUrl false
  let retries := GetRetryFromContext ctxRetry
  if retries < 3 then
    if ctxDone then (s1, .noResponse)
    else
      match GetNextProxy s1 with
      | (s2, some i) => (s2, .served i)
      | (s2, none) => (s2, .error503)
  else (s1, .noResponse)

/-- `algorithm.Server`, the per-backend view handed to selection policies, as
populated by `ServerPool.GetBackends` (lines 288-304): URL string, weights,
connection counter, limit and alive flag copied from the backend. -/
structure Server where
  url : String
  weight : Int
  currentWeight : Int
  connectionCount : Int
  maxConnections : Int
  alive : Bool
deriving Repr, DecidableEq

/-- Modelled from the spec: `Server.CanAcceptConnection` is called by
`RoundRobin.NextServer` but its body is not among the sources; the spec calls
a backend capacity-available exactly when its connection count is below its
`max_connections`. -/
def CanAcceptConnection (sv : Server) : Bool :=
  sv.connectionCount < sv.maxConnections

/-- The `for i := 0; i < l; i++` scan of `RoundRobin.NextServer`
(load-balancer/main.go, lines 375-383): probe positions `(idx + i) % l` in
order and return the first alive, capacity-available server's position. The
fuel argument counts the remaining iterations. -/
def rrScanAux (servers : List Server) (idx : Nat) : Nat → Nat → Option Nat
  | _, 0 => none
  | i, fuel + 1 =>
    let serverIdx := (idx + i) % servers.length
    match servers[serverIdx]? with
    | some sv =>
      if sv.alive && CanAcceptConnection sv then some serverIdx
      else rrScanAux servers idx (i + 1) fuel
    | none => none

/-- `RoundRobin.NextServer` (load-balancer/main.go, lines 362-386): on an
empty snapshot return `nil` without touching the cursor; otherwise store
`next = cursor + 1` (uint64, wrapping) and scan cyclically from
`next % len(servers)` for at most `len(servers)` steps. The returned position
stands for the returned `*Server`. -/
def NextServer (servers : List Server) (cur : Nat) : Nat × Option Nat :=
  if servers.length = 0 then (cur, none)
  else
    let next := (cur + 1) % UINT64_MOD
    (next, rrScanAux servers (next % servers.length) 0 servers.length)

/-- Whether the server stored at position `j` is alive and capacity-available.
Out-of-range positions are not acceptable. -/
def acceptableIdx (servers : List Server) (j : Nat) : Bool :=
  match servers[j]? with
  | some sv => sv.alive && CanAcceptConnection sv
  | none => false

/-- The claim's description of the round-robin scan, written from its words:
starting at position `start` and scanning forward cyclically for at most `N`
steps, the first position holding an alive, capacity-available server
(tie-break by index, i.e. by scan order). -/
def firstAcceptableFrom (servers : List Server) (start : Nat) : Option Nat :=
  ((List.range servers.length).map
      (fun t => (start + t) % servers.length)).find? (acceptableIdx servers)

/-- A sequence of `m` consecutive `NextServer` calls on a fixed snapshot (the
snapshot is unchanged between calls: `NextServer` mutates only the cursor),
returning the final cursor and the list of selections in call order. -/
def runNextServer (servers : List Server) (cur : Nat) : Nat → Nat × List (Option Nat)
  | 0 => (cur, [])
  | m + 1 =>
    let step := NextServer servers cur
    let rest := runNextServer servers step.1 m
    (rest.1, step.2 :: rest.2)

/-- HTTP method of an admin request, as switched on by `handleBackends`. -/
inductive Method where
  | get
  | post
  | delete
  | other
deriving Repr, DecidableEq

/-- `service.LocationInfo` as read by the admin handler: only its `Path` field
steers `handleBackends`. -/
structure LocationInfo where
  path : String
deriving Repr, DecidableEq

/-- The service record returned by `serviceManager.GetServiceByName`, as read
by the admin handler: its ordered list of locations. -/
structure ServiceInfo where
  locations : List LocationInfo
deriving Repr, DecidableEq

/-- Outcome of `AdminAPI.handleBackends` up to the method switch: one of the
early error responses, or control reaching the GET/POST/DELETE switch with the
chosen location (the switch's own work is opaque to the claims). -/
inductive BackendsResponse where
  | badRequestServiceName
  | notFoundService
  | badRequestLocationParam
  | notFoundLocation
  | backendOps (loc : LocationInfo) (m : Method)
deriving Repr, DecidableEq

/-- The `for _, loc := range srvc.Locations` lookup of `handleBackends`
(internal/admin/api.go, lines 95-101): first location whose path equals the
`path` query parameter. -/
def findLocation (locs : List LocationInfo) (p : String) : Option LocationInfo :=
  match locs with
  | [] => none
  | l :: rest => if l.path = p then some l else findLocation rest p

/-- `AdminAPI.handleBackends` (internal/admin/api.go, lines 81-148) up to the
method switch: require `service_name`, look the service up, look the location
up by the `path` parameter; when the lookup found nothing and `path` is empty,
fall back to the single location if there is exactly one (400 otherwise); in
every other case — in particular whenever the lookup succeeds — answer
404 "Location not found". -/
def handleBackends (lookup : String → Option ServiceInfo)
    (serviceName svcLocation : String) (m : Method) : BackendsResponse :=
  if serviceName = "" then .badRequestServiceName
  else
    match lookup serviceName with
    | none => .notFoundService
    | some srvc =>
      let location := findLocation srvc.locations svcLocation
      if location = none ∧ svcLocation = "" then
        match srvc.locations with
        | [loc] => .backendOps loc m
        | _ => .badRequestLocationParam
      else .notFoundLocation

/-! ### Helper lemmas -/

theorem modifyIdx_get? {α : Type} (l : List α) (i : Nat) (f : α → α) (j : Nat) :
    (modifyIdx l i f)[j]? = if j = i then l[j]?.map f else l[j]? := by
  induction l generalizing i j with
  | nil => simp [modifyIdx]
  | cons x xs ih =>
    cases i with
    | zero => cases j <;> simp [modifyIdx]
    | succ n =>
      cases j with
      | zero => simp [modifyIdx]
      | succ jm => simpa [modifyIdx] using ih n jm

theorem mem_modifyIdx {α : Type} (l : List α) (i : Nat) (f : α → α) :
    ∀ x ∈ modifyIdx l i f, x ∈ l ∨ ∃ y ∈ l, x = f y := by
  induction l generalizing i with
  | nil => simp [modifyIdx]
  | cons z xs ih =>
    cases i with
    | zero =>
      intro x hx
      rcases List.mem_cons.1 hx with h | h
      · exact Or.inr ⟨z, List.mem_cons_self _ _, h⟩
      · exact Or.inl (List.mem_cons_of_mem _ h)
    | succ n =>
      intro x hx
      rcases List.mem_cons.1 hx with h | h
      · exact Or.inl (h ▸ List.mem_cons_self _ _)
      · rcases ih n x h with h' | ⟨y, hy, hxy⟩
        · exact Or.inl (List.mem_cons_of_mem _ h')
        · exact Or.inr ⟨y, List.mem_cons_of_mem _ hy, hxy⟩

/-- `markFirstByUrl` touches each position either not at all or only in its
alive flag. -/
theorem markFirstByUrl_get? (bs : List Backend) (u : String) (a : Bool) (j : Nat) :
    (markFirstByUrl bs u a)[j]? = bs[j]? ∨
      ∃ b, bs[j]? = some b ∧ (markFirstByUrl bs u a)[j]? = some { b with alive := a } := by
  induction bs generalizing j with
  | nil => simp [markFirstByUrl]
  | cons b rest ih =>
    by_cases h : b.url = u
    · cases j with
      | zero => exact Or.inr ⟨b, by simp [markFirstByUrl, h]⟩
      | succ jm => simp [markFirstByUrl, h]
    · cases j with
      | zero => simp [markFirstByUrl, h]
      | succ jm => simpa [markFirstByUrl, h] using ih jm

/-- At the first matching position, `markFirstByUrl` clears the alive flag to
the given value. -/
theorem markFirstByUrl_first_match (bs : List Backend) (u : String) (a : Bool) :
    ∀ (j : Nat) (b : Backend), bs[j]? = some b → b.url = u →
      (∀ (k : Nat) (b' : Backend), k < j → bs[k]? = some b' → b'.url ≠ u) →
      (markFirstByUrl bs u a)[j]? = some { b with alive := a } := by
  induction bs with
  | nil => intro j b h; simp at h
  | cons hd rest ih =>
    intro j b hget hurl hfirst
    cases j with
    | zero =>
      simp at hget
      subst hget
      simp [markFirstByUrl, hurl]
    | succ jm =>
      have hhd : hd.url ≠ u := hfirst 0 hd (Nat.succ_pos _) (by simp)
      simp [markFirstByUrl, hhd]
      have := ih jm b (by simpa using hget) hurl
        (fun k b' hk hget' => hfirst (k + 1) b' (Nat.succ_lt_succ hk) (by simpa using hget'))
      simpa using this

/-- Closed form of `GetNextPeer`. -/
theorem GetNextPeer_eq (s : ServerPool) :
    GetNextPeer s = ({ s with current := (s.current + 1) % UINT64_MOD },
      if s.backends.length = 0 then none
      else some (((s.current + 1) % UINT64_MOD) % s.backends.length)) := by
  unfold GetNextPeer
  by_cases h : s.backends.length = 0 <;> simp [h]

/-- Closed form of `GetNextProxy`. -/
theorem GetNextProxy_eq (s : ServerPool) :
    GetNextProxy s = if s.backends.length = 0
      then ({ s with current := (s.current + 1) % UINT64_MOD }, none)
      else ({ s with
                current := (s.current + 1) % UINT64_MOD,
                backends := modifyIdx s.backends
                  (((s.current + 1) % UINT64_MOD) % s.backends.length)
                  (fun b => { b with connectionCount := b.connectionCount + 1 }) },
            some (((s.current + 1) % UINT64_MOD) % s.backends.length)) := by
  unfold GetNextProxy
  rw [GetNextPeer_eq]
  by_cases h : s.backends.length = 0 <;> simp [h]

/-! ### Claim C1 -/

/-- Claim C1, counterexample: starting from a backend satisfying the invariant
(count 0, limit 1), the single-operation sequence `DecrementConnections`
drives the count to −1 < 0; and from a backend at capacity (count 1, limit 1),
`GetNextProxy` drives the count to 2 > 1. The invariant `0 ≤ count ≤ max`
does not hold at every point of every operation sequence. -/
theorem c1_invariant_cex :
    (DecrementConnections ⟨"a", true, 1, 0, 0, 1⟩).connectionCount = -1 ∧
    ¬ (0 ≤ (DecrementConnections ⟨"a", true, 1, 0, 0, 1⟩).connectionCount) ∧
    ((GetNextProxy ⟨[⟨"a", true, 1, 0, 1, 1⟩], 0, 1000⟩).1.backends.map
        Backend.connectionCount = [2]) ∧
    ¬ (∀ b ∈ (GetNextProxy ⟨[⟨"a", true, 1, 0, 1, 1⟩], 0, 1000⟩).1.backends,
        b.connectionCount ≤ b.maxConnections) := by
  refine ⟨rfl, by decide, rfl, ?_⟩
  intro h
  have := h ⟨"a", true, 1, 0, 2, 1⟩ (by decide)
  simp at this

/-- Claim C1, amended: each operation preserves only part of the invariant.
`IncrementConnections` preserves `0 ≤ count ≤ max_connections`;
`DecrementConnections` preserves the upper bound but decrements
unconditionally, so an unmatched release breaks the lower bound;
`GetNextProxy` preserves the lower bound but increments without a capacity
check, so it can break the upper bound. -/
theorem c1_amended_per_op_bounds (b : Backend) (s : ServerPool) :
    (0 ≤ b.connectionCount → b.connectionCount ≤ b.maxConnections →
      0 ≤ (IncrementConnections b).2.connectionCount ∧
        (IncrementConnections b).2.connectionCount ≤ (IncrementConnections b).2.maxConnections) ∧
    (b.connectionCount ≤ b.maxConnections →
      (DecrementConnections b).connectionCount ≤ (DecrementConnections b).maxConnections) ∧
    ((∀ b' ∈ s.backends, 0 ≤ b'.connectionCount) →
      ∀ b' ∈ (GetNextProxy s).1.backends, 0 ≤ b'.connectionCount) := by
  refine ⟨?_, ?_, ?_⟩
  · intro h0 hmax
    unfold IncrementConnections
    split <;> simp <;> omega
  · intro hmax
    unfold DecrementConnections
    simp
    omega
  · intro hall b' hb'
    rw [GetNextProxy_eq] at hb'
    by_cases h : s.backends.length = 0 <;> simp [h] at hb'
    · exact hall b' hb'
    · rcases mem_modifyIdx _ _ _ b' hb' with hmem | ⟨y, hy, hxy⟩
      · exact hall b' hmem
      · have := hall y hy
        subst hxy
        simp
        omega

/-- Claim C1 witness. -/
theorem c1_amended_per_op_bounds_witness :
    0 ≤ (IncrementConnections ⟨"a", true, 1, 0, 0, 2⟩).2.connectionCount ∧
    (DecrementConnections ⟨"a", true, 1, 0, 1, 2⟩).connectionCount ≤
      (DecrementConnections ⟨"a", true, 1, 0, 1, 2⟩).maxConnections ∧
    ∀ b' ∈ (GetNextProxy ⟨[⟨"a", true, 1, 0, 0, 2⟩], 0, 1000⟩).1.backends,
      0 ≤ b'.connectionCount :=
  ⟨((c1_amended_per_op_bounds ⟨"a", true, 1, 0, 0, 2⟩
      ⟨[⟨"a", true, 1, 0, 0, 2⟩], 0, 1000⟩).1 (by decide) (by decide)).1,
   (c1_amended_per_op_bounds ⟨"a", true, 1, 0, 1, 2⟩
      ⟨[⟨"a", true, 1, 0, 0, 2⟩], 0, 1000⟩).2.1 (by decide),
   (c1_amended_per_op_bounds ⟨"a", true, 1, 0, 1, 2⟩
      ⟨[⟨"a", true, 1, 0, 0, 2⟩], 0, 1000⟩).2.2 (by decide)⟩

/-! ### Claim C3 -/

/-- Claim C3, counterexample: `GetNextPeer` on a pool whose only backend is
not alive and at capacity still returns that backend — the selection performs
no aliveness check and no capacity-checked acquire. -/
theorem c3_selection_cex :
    (GetNextPeer ⟨[⟨"a", false, 1, 0, 5, 1⟩], 0, 1000⟩).2 = some 0 ∧
    (⟨[⟨"a", false, 1, 0, 5, 1⟩], 0, 1000⟩ : ServerPool).backends[0]? =
      some ⟨"a", false, 1, 0, 5, 1⟩ ∧
    (⟨"a", false, 1, 0, 5, 1⟩ : Backend).alive = false ∧
    ¬ ((⟨"a", false, 1, 0, 5, 1⟩ : Backend).connectionCount <
        (⟨"a", false, 1, 0, 5, 1⟩ : Backend).maxConnections) := by
  refine ⟨rfl, rfl, rfl, by decide⟩

/-- Claim C3, amended: `GetNextPeer` filters nothing — on a non-empty pool it
returns the backend at position `(current + 1) mod 2^64 mod N` regardless of
its alive flag or capacity, and it returns nothing exactly when the pool is
empty; `GetNextProxy` increments the selected backend's connection count
unconditionally instead of through the capacity-checked acquire. -/
theorem c3_amended_next_peer (s : ServerPool) :
    (s.backends = [] →
      GetNextPeer s = ({ s with current := (s.current + 1) % UINT64_MOD }, none)) ∧
    (s.backends ≠ [] →
      (GetNextPeer s).2 = some (((s.current + 1) % UINT64_MOD) % s.backends.length)) ∧
    (∀ i b, (GetNextPeer s).2 = some i → s.backends[i]? = some b →
      (GetNextProxy s).1.backends[i]? =
        some { b with connectionCount := b.connectionCount + 1 }) := by
  refine ⟨?_, ?_, ?_⟩
  · intro h
    rw [GetNextPeer_eq]
    simp [h]
  · intro h
    have hlen : s.backends.length ≠ 0 := by simpa [List.length_eq_zero] using h
    rw [GetNextPeer_eq]
    simp [hlen]
  · intro i b hpeer hget
    rw [GetNextPeer_eq] at hpeer
    by_cases h : s.backends.length = 0
    · simp [h] at hpeer
    · simp [h] at hpeer
      rw [GetNextProxy_eq]
      simp [h, modifyIdx_get?, hpeer, hget]

/-- Claim C3 witness. -/
theorem c3_amended_next_peer_witness :
    (GetNextPeer ⟨[⟨"a", false, 1, 0, 5, 1⟩], 0, 1000⟩).2 = some 0 ∧
    (GetNextProxy ⟨[⟨"a", false, 1, 0, 5, 1⟩], 0, 1000⟩).1.backends[0]? =
      some ⟨"a", false, 1, 0, 6, 1⟩ := by
  have h := c3_amended_next_peer ⟨[⟨"a", false, 1, 0, 5, 1⟩], 0, 1000⟩
  have h1 : (GetNextPeer ⟨[⟨"a", false, 1, 0, 5, 1⟩], 0, 1000⟩).2 = some 0 := by
    have := h.2.1 (by decide)
    simpa using this
  exact ⟨h1, h.2.2 0 ⟨"a", false, 1, 0, 5, 1⟩ h1 rfl⟩

/-! ### Claim C4 -/

/-- Claim C4: `IncrementConnections` returns `true` and bumps the count to
`c + 1` exactly when `c < max_connections`; otherwise it returns `false` and
leaves the backend unchanged; a call from a state within the limit never moves
the count beyond the limit. (The CAS loop is sequentialized: with no
interference the compare-and-swap succeeds on its first iteration, so the
operation never blocks; oversubscription is excluded because the increment is
guarded by the same load the bound check reads.) -/
theorem c4_increment_connections (b : Backend) :
    ((IncrementConnections b).1 = true ↔ b.connectionCount < b.maxConnections) ∧
    (b.connectionCount < b.maxConnections →
      (IncrementConnections b).2 = { b with connectionCount := b.connectionCount + 1 }) ∧
    (b.maxConnections ≤ b.connectionCount → IncrementConnections b = (false, b)) ∧
    (b.connectionCount ≤ b.maxConnections →
      (IncrementConnections b).2.connectionCount ≤ b.maxConnections) := by
  unfold IncrementConnections
  refine ⟨?_, ?_, ?_, ?_⟩ <;> (try intro h) <;> split <;> simp_all <;> omega

/-- Claim C4 witness. -/
theorem c4_increment_connections_witness :
    (IncrementConnections ⟨"a", true, 1, 0, 0, 1⟩).2 = ⟨"a", true, 1, 0, 1, 1⟩ ∧
    IncrementConnections ⟨"a", true, 1, 0, 1, 1⟩ = (false, ⟨"a", true, 1, 0, 1, 1⟩) :=
  ⟨(c4_increment_connections ⟨"a", true, 1, 0, 0, 1⟩).2.1 (by decide),
   (c4_increment_connections ⟨"a", true, 1, 0, 1, 1⟩).2.2.1 (by decide)⟩

/-! ### Claim C5 -/

/-- Claim C5, counterexample: from a backend with connection count 0,
`DecrementConnections` yields −1, not 0 — there is no saturation at zero. -/
theorem c5_release_cex :
    (DecrementConnections ⟨"a", true, 1, 0, 0, 5⟩).connectionCount = -1 ∧
    (DecrementConnections ⟨"a", true, 1, 0, 0, 5⟩).connectionCount ≠ 0 := by
  exact ⟨rfl, by decide⟩

/-- Claim C5, amended: `DecrementConnections` subtracts one unconditionally;
from a backend whose connection count is zero it leaves the count at −1
(negative), not at zero. -/
theorem c5_amended_decrement (b : Backend) (h : b.connectionCount = 0) :
    (DecrementConnections b).connectionCount = -1 ∧
    (DecrementConnections b).connectionCount < 0 := by
  unfold DecrementConnections
  simp [h]

/-- Claim C5 witness. -/
theorem c5_amended_decrement_witness :
    (DecrementConnections ⟨"a", true, 1, 0, 0, 5⟩).connectionCount = -1 :=
  (c5_amended_decrement ⟨"a", true, 1, 0, 0, 5⟩ rfl).1

/-! ### Claim C2 -/

theorem markFirstByUrl_length (bs : List Backend) (u : String) (a : Bool) :
    (markFirstByUrl bs u a).length = bs.length := by
  induction bs with
  | nil => rfl
  | cons b rest ih =>
    by_cases h : b.url = u <;> simp [markFirstByUrl, h, ih]

theorem markFirstByUrl_count_at (bs : List Backend) (u : String) (a : Bool)
    (j : Nat) (b : Backend) (hget : bs[j]? = some b) :
    ∃ b', (markFirstByUrl bs u a)[j]? = some b' ∧
      b'.connectionCount = b.connectionCount := by
  rcases markFirstByUrl_get? bs u a j with h | ⟨b₀, hb₀, h⟩
  · exact ⟨b, by rw [h, hget], rfl⟩
  · rw [hget] at hb₀
    cases hb₀
    exact ⟨{ b with alive := a }, h, rfl⟩

theorem GetNextProxy_pool_at (s : ServerPool) (j : Nat) (b : Backend)
    (hget : s.backends[j]? = some b) :
    ∃ b', (GetNextProxy s).1.backends[j]? = some b' ∧
      b.connectionCount ≤ b'.connectionCount ∧ b'.alive = b.alive := by
  rw [GetNextProxy_eq]
  by_cases h : s.backends.length = 0
  · simp only [h, if_pos]
    exact ⟨b, hget, le_refl _, rfl⟩
  · simp only [h, if_neg, reduceIte]
    rw [modifyIdx_get?]
    by_cases hj : j = ((s.current + 1) % UINT64_MOD) % s.backends.length
    · rw [if_pos hj, hget]
      exact ⟨_, rfl, by simp, rfl⟩
    · rw [if_neg hj, hget]
      exact ⟨b, rfl, le_refl _, rfl⟩

/-- The pool coming out of the error handler is the marked pool, possibly
passed through `GetNextProxy`. -/
theorem ErrorHandler_fst (s : ServerPool) (failedUrl : String)
    (ctxRetry : Option Int) (ctxDone : Bool) :
    (ErrorHandler s failedUrl ctxRetry ctxDone).1 = MarkBackendStatus s failedUrl false ∨
    (ErrorHandler s failedUrl ctxRetry ctxDone).1 =
      (GetNextProxy (MarkBackendStatus s failedUrl false)).1 := by
  unfold ErrorHandler
  by_cases hr : GetRetryFromContext ctxRetry < 3
  · simp only [hr, if_pos]
    cases ctxDone with
    | true => exact Or.inl rfl
    | false =>
      simp only [Bool.false_eq_true, if_neg, reduceIte]
      rcases hp : GetNextProxy (MarkBackendStatus s failedUrl false) with ⟨s₂, r⟩
      cases r <;> simp [hp]
  · simp [hr]

/-- Claim C2, counterexample: with the retry counter in the context already at
3, the handler writes no response at all — it does not respond 503 — and the
failed backend's connection count stays at 1: the acquired slot is not
released. (The counter is also never incremented anywhere, so a real request
always reaches this handler with the context value absent, i.e. 0.) -/
theorem c2_error_path_cex :
    (ErrorHandler ⟨[⟨"a", true, 1, 0, 1, 2⟩], 0, 1000⟩ "a" (some 3) false).2 =
      .noResponse ∧
    (ErrorHandler ⟨[⟨"a", true, 1, 0, 1, 2⟩], 0, 1000⟩ "a" (some 3) false).2 ≠
      .error503 ∧
    (ErrorHandler ⟨[⟨"a", true, 1, 0, 1, 2⟩], 0, 1000⟩ "a" (some 3) false).1.backends.map
      Backend.connectionCount = [1] := by
  refine ⟨rfl, by decide, rfl⟩

/-- Claim C2, amended: on a transport-level error the handler marks the first
backend matching the failed URL not-alive and reads — but never increments or
stores back — the per-request retry counter (0 when absent from the context).
With the counter below 3 and the context not done it retries exactly once
through `GetNextProxy`, serving whatever backend the cursor selects, and it
responds 503 only when the backend list is empty; with the counter at 3 or
more, or the context done, it writes no response at all. The failed backend's
acquired connection slot is never released on this path: no connection count
decreases. -/
theorem c2_amended_error_path (s : ServerPool) (failedUrl : String)
    (ctxRetry : Option Int) (ctxDone : Bool) :
    (¬ GetRetryFromContext ctxRetry < 3 →
      ErrorHandler s failedUrl ctxRetry ctxDone =
        (MarkBackendStatus s failedUrl false, .noResponse)) ∧
    (GetRetryFromContext ctxRetry < 3 → ctxDone = true →
      ErrorHandler s failedUrl ctxRetry ctxDone =
        (MarkBackendStatus s failedUrl false, .noResponse)) ∧
    (GetRetryFromContext ctxRetry < 3 → ctxDone = false → s.backends ≠ [] →
      (ErrorHandler s failedUrl ctxRetry ctxDone).2 =
        .served (((s.current + 1) % UINT64_MOD) % s.backends.length)) ∧
    (GetRetryFromContext ctxRetry < 3 → ctxDone = false → s.backends = [] →
      (ErrorHandler s failedUrl ctxRetry ctxDone).2 = .error503) ∧
    (∀ (j : Nat) (b : Backend), s.backends[j]? = some b → b.url = failedUrl →
      (∀ (k : Nat) (b' : Backend), k < j → s.backends[k]? = some b' → b'.url ≠ failedUrl) →
      ∃ b', (ErrorHandler s failedUrl ctxRetry ctxDone).1.backends[j]? = some b' ∧
        b'.alive = false) ∧
    (∀ (j : Nat) (b : Backend), s.backends[j]? = some b →
      ∃ b', (ErrorHandler s failedUrl ctxRetry ctxDone).1.backends[j]? = some b' ∧
        b.connectionCount ≤ b'.connectionCount) := by
  refine ⟨?_, ?_, ?_, ?_, ?_, ?_⟩
  · intro hr
    unfold ErrorHandler
    simp [hr]
  · intro hr hd
    unfold ErrorHandler
    simp [hr, hd]
  · intro hr hd hne
    have hlen : (MarkBackendStatus s failedUrl false).backends.length ≠ 0 := by
      unfold MarkBackendStatus
      simp only [markFirstByUrl_length]
      simpa [List.length_eq_zero] using hne
    unfold ErrorHandler
    simp only [hr, if_pos, hd, Bool.false_eq_true, reduceIte]
    rw [GetNextProxy_eq]
    simp only [hlen, if_neg, reduceIte]
    unfold MarkBackendStatus
    simp [markFirstByUrl_length]
  · intro hr hd hemp
    have hlen : (MarkBackendStatus s failedUrl false).backends.length = 0 := by
      unfold MarkBackendStatus
      simp [markFirstByUrl_length, hemp]
    unfold ErrorHandler
    simp only [hr, if_pos, hd, Bool.false_eq_true, reduceIte]
    rw [GetNextProxy_eq]
    simp [hlen]
  · intro j b hget hurl hfirst
    have hmark : (markFirstByUrl s.backends failedUrl false)[j]? =
        some { b with alive := false } :=
      markFirstByUrl_first_match s.backends failedUrl false j b hget hurl hfirst
    rcases ErrorHandler_fst s failedUrl ctxRetry ctxDone with h1 | h1 <;> rw [h1]
    · exact ⟨{ b with alive := false }, hmark, rfl⟩
    · rcases GetNextProxy_pool_at (MarkBackendStatus s failedUrl false) j
          { b with alive := false } hmark with ⟨b', hb', _, halive⟩
      exact ⟨b', hb', halive⟩
  · intro j b hget
    rcases markFirstByUrl_count_at s.backends failedUrl false j b hget with
      ⟨b₁, hb₁, hcnt⟩
    rcases ErrorHandler_fst s failedUrl ctxRetry ctxDone with h1 | h1 <;> rw [h1]
    · exact ⟨b₁, hb₁, le_of_eq hcnt.symm⟩
    · rcases GetNextProxy_pool_at (MarkBackendStatus s failedUrl false) j b₁ hb₁ with
        ⟨b₂, hb₂, hle, _⟩
      exact ⟨b₂, hb₂, le_trans (le_of_eq hcnt.symm) hle⟩

/-- Claim C2 witness. -/
theorem c2_amended_error_path_witness :
    (ErrorHandler ⟨[⟨"a", true, 1, 0, 1, 2⟩], 0, 1000⟩ "a" none false).2 = .served 0 ∧
    (ErrorHandler ⟨[⟨"a", true, 1, 0, 1, 2⟩], 0, 1000⟩ "a" (some 3) false) =
      (MarkBackendStatus ⟨[⟨"a", true, 1, 0, 1, 2⟩], 0, 1000⟩ "a" false, .noResponse) ∧
    (∃ b', (ErrorHandler ⟨[⟨"a", true, 1, 0, 1, 2⟩], 0, 1000⟩ "a" none false).1.backends[0]? =
      some b' ∧ b'.alive = false) :=
  ⟨(c2_amended_error_path ⟨[⟨"a", true, 1, 0, 1, 2⟩], 0, 1000⟩ "a" none false).2.2.1
      (by decide) rfl (by decide),
   (c2_amended_error_path ⟨[⟨"a", true, 1, 0, 1, 2⟩], 0, 1000⟩ "a" (some 3) false).1
      (by decide),
   (c2_amended_error_path ⟨[⟨"a", true, 1, 0, 1, 2⟩], 0, 1000⟩ "a" none false).2.2.2.2.1
      0 ⟨"a", true, 1, 0, 1, 2⟩ rfl rfl (by intro k b' hk; cases hk)⟩

/-! ### Claim C8 -/

theorem removeFirstByUrl_eq_none (bs : List Backend) (u : String) :
    removeFirstByUrl bs u = none ↔ ∀ b ∈ bs, b.url ≠ u := by
  induction bs with
  | nil => simp [removeFirstByUrl]
  | cons b rest ih =>
    by_cases h : b.url = u
    · simp [removeFirstByUrl, h]
    · simp [removeFirstByUrl, h, ih]

theorem removeFirstByUrl_first (u : String) :
    ∀ (l₁ l₂ : List Backend) (b : Backend), (∀ b' ∈ l₁, b'.url ≠ u) → b.url = u →
      removeFirstByUrl (l₁ ++ b :: l₂) u = some (l₁ ++ l₂) := by
  intro l₁
  induction l₁ with
  | nil => intro l₂ b _ hb; simp [removeFirstByUrl, hb]
  | cons x rest ih =>
    intro l₂ b hclean hb
    have hx : x.url ≠ u := hclean x (List.mem_cons_self _ _)
    have ihr := ih l₂ b (fun b' hb' => hclean b' (List.mem_cons_of_mem _ hb')) hb
    simp only [List.cons_append, removeFirstByUrl, if_neg hx, List.append_eq]
    rw [ihr]
    rfl

/-- Claim C8: `RemoveBackend` errors exactly when no backend's URL matches,
and on success replaces the backend list by the old list with precisely the
first matching backend removed — the other backends keep their relative order
and their state. (On the error path the Go method has not touched
`s.backends`; the `Except` result carries no pool there.) -/
theorem c8_remove_backend (s : ServerPool) (u : String) :
    ((∃ e, RemoveBackend s u = .error e) ↔ ∀ b ∈ s.backends, b.url ≠ u) ∧
    (∀ (l₁ l₂ : List Backend) (b : Backend),
      s.backends = l₁ ++ b :: l₂ → (∀ b' ∈ l₁, b'.url ≠ u) → b.url = u →
      RemoveBackend s u = .ok { s with backends := l₁ ++ l₂ }) := by
  constructor
  · constructor
    · intro ⟨e, he⟩
      unfold RemoveBackend at he
      rcases hr : removeFirstByUrl s.backends u with _ | bs
      · exact (removeFirstByUrl_eq_none s.backends u).1 hr
      · rw [hr] at he; simp at he
    · intro hnone
      refine ⟨"backend not found", ?_⟩
      unfold RemoveBackend
      rw [(removeFirstByUrl_eq_none s.backends u).2 hnone]
  · intro l₁ l₂ b hsplit hclean hb
    unfold RemoveBackend
    rw [hsplit, removeFirstByUrl_first u l₁ l₂ b hclean hb]

/-- Claim C8 witness. -/
theorem c8_remove_backend_witness :
    RemoveBackend ⟨[⟨"a", true, 1, 0, 3, 9⟩, ⟨"b", false, 2, 0, 4, 9⟩], 5, 1000⟩ "b" =
      .ok ⟨[⟨"a", true, 1, 0, 3, 9⟩], 5, 1000⟩ ∧
    (∃ e, RemoveBackend ⟨[⟨"a", true, 1, 0, 3, 9⟩, ⟨"b", false, 2, 0, 4, 9⟩], 5, 1000⟩ "z" =
      .error e) :=
  ⟨(c8_remove_backend ⟨[⟨"a", true, 1, 0, 3, 9⟩, ⟨"b", false, 2, 0, 4, 9⟩], 5, 1000⟩ "b").2
      [⟨"a", true, 1, 0, 3, 9⟩] [] ⟨"b", false, 2, 0, 4, 9⟩ rfl (by decide) rfl,
   (c8_remove_backend ⟨[⟨"a", true, 1, 0, 3, 9⟩, ⟨"b", false, 2, 0, 4, 9⟩], 5, 1000⟩ "z").1.2
      (by decide)⟩

/-! ### Claim C9 -/

theorem findByUrl_eq_some (bs : List Backend) (u : String) (b : Backend) :
    findByUrl bs u = some b → b ∈ bs ∧ b.url = u := by
  induction bs with
  | nil => intro h; simp [findByUrl] at h
  | cons x rest ih =>
    intro h
    by_cases hx : x.url = u
    · simp [findByUrl, hx] at h
      subst h
      exact ⟨List.mem_cons_self _ _, hx⟩
    · simp [findByUrl, hx] at h
      rcases ih h with ⟨hmem, hurl⟩
      exact ⟨List.mem_cons_of_mem _ hmem, hurl⟩

theorem updateLoop_getElem? (old : List Backend) (configs : List BackendConfig) (i : Nat) :
    (updateLoop old configs)[i]? = configs[i]?.map (fun cfg =>
      match findByUrl old cfg.url with
      | some b => { b with weight := cfg.weight }
      | none => freshUpdateBackend cfg) := by
  induction configs generalizing i with
  | nil => simp [updateLoop]
  | cons cfg rest ih =>
    cases i with
    | zero => simp [updateLoop]
    | succ im => simpa [updateLoop] using ih im

theorem mem_updateLoop (old : List Backend) (configs : List BackendConfig) :
    ∀ nb ∈ updateLoop old configs, ∃ cfg ∈ configs, nb.url = cfg.url := by
  induction configs with
  | nil => simp [updateLoop]
  | cons cfg rest ih =>
    intro nb hnb
    rcases List.mem_cons.1 hnb with h | h
    · refine ⟨cfg, List.mem_cons_self _ _, ?_⟩
      rcases hf : findByUrl old cfg.url with _ | b
      · rw [hf] at h; simp [freshUpdateBackend] at h; simp [h, freshUpdateBackend]
      · rw [hf] at h
        have := (findByUrl_eq_some old cfg.url b hf).2
        simp at h
        simp [h, this]
    · rcases ih nb h with ⟨cfg', hc, hu⟩
      exact ⟨cfg', List.mem_cons_of_mem _ hc, hu⟩

/-- Claim C9, counterexample: a pool holding backend `"a"` with weight 1 is
updated with a config naming `"a"` with weight 2; the preserved backend's
weight becomes 2 — `UpdateBackends` assigns `existing.Weight = cfg.Weight`
instead of leaving the weights unchanged as the claim states. -/
theorem c9_update_cex :
    (UpdateBackends ⟨[⟨"a", true, 1, 0, 7, 9⟩], 0, 1000⟩ [⟨"a", 2, 0⟩]).backends =
      [⟨"a", true, 2, 0, 7, 9⟩] ∧
    ¬ ((UpdateBackends ⟨[⟨"a", true, 1, 0, 7, 9⟩], 0, 1000⟩ [⟨"a", 2, 0⟩]).backends.map
        Backend.weight = [1]) := by
  exact ⟨rfl, by decide⟩

/-- Claim C9, amended: the new backend list is exactly the image of the config
list, in order. A configured URL already present keeps the same backend record
with its connection count, alive flag, current weight and max-connections
limit unchanged, but its weight is overwritten with the config entry's weight;
a configured URL not present yields a fresh backend initialized alive with
zero connections; backends whose URL is absent from the new config are
dropped. -/
theorem c9_amended_update_backends (s : ServerPool) (configs : List BackendConfig) :
    ((UpdateBackends s configs).backends.length = configs.length) ∧
    (∀ (i : Nat) (cfg : BackendConfig), configs[i]? = some cfg →
      ∃ nb, (UpdateBackends s configs).backends[i]? = some nb ∧
        nb.url = cfg.url ∧ nb.weight = cfg.weight ∧
        (∀ b, findByUrl s.backends cfg.url = some b →
          nb.connectionCount = b.connectionCount ∧ nb.alive = b.alive ∧
          nb.currentWeight = b.currentWeight ∧ nb.maxConnections = b.maxConnections) ∧
        (findByUrl s.backends cfg.url = none →
          nb.alive = true ∧ nb.connectionCount = 0)) ∧
    (∀ nb ∈ (UpdateBackends s configs).backends, ∃ cfg ∈ configs, nb.url = cfg.url) := by
  refine ⟨?_, ?_, ?_⟩
  · unfold UpdateBackends
    simp
    induction configs with
    | nil => simp [updateLoop]
    | cons cfg rest ih => simp [updateLoop, ih]
  · intro i cfg hcfg
    unfold UpdateBackends
    simp only [updateLoop_getElem?, hcfg, Option.map_some']
    rcases hf : findByUrl s.backends cfg.url with _ | b
    · simp only [hf]
      refine ⟨freshUpdateBackend cfg, rfl, rfl, rfl, ?_, ?_⟩
      · intro b hb; cases hb
      · intro _; exact ⟨rfl, rfl⟩
    · simp only [hf]
      refine ⟨{ b with weight := cfg.weight }, rfl,
        (findByUrl_eq_some s.backends cfg.url b hf).2, rfl, ?_, ?_⟩
      · intro b' hb'
        cases hb'
        exact ⟨rfl, rfl, rfl, rfl⟩
      · intro hnone; cases hnone
  · exact mem_updateLoop s.backends configs

/-- Claim C9 witness. -/
theorem c9_amended_update_backends_witness :
    ∃ nb, (UpdateBackends ⟨[⟨"a", true, 1, 0, 7, 9⟩], 0, 1000⟩
        [⟨"a", 2, 0⟩, ⟨"b", 3, 0⟩]).backends[0]? = some nb ∧
      nb.url = "a" ∧ nb.weight = 2 ∧
      nb.connectionCount = 7 ∧ nb.alive = true := by
  rcases (c9_amended_update_backends ⟨[⟨"a", true, 1, 0, 7, 9⟩], 0, 1000⟩
      [⟨"a", 2, 0⟩, ⟨"b", 3, 0⟩]).2.1 0 ⟨"a", 2, 0⟩ rfl with
    ⟨nb, hget, hurl, hw, hpres, _⟩
  have hp := hpres ⟨"a", true, 1, 0, 7, 9⟩ (by decide)
  exact ⟨nb, hget, hurl, hw, hp.1, hp.2.1⟩

/-! ### Claim C10 -/

/-- Claim C10: in `handleBackends`, whenever the `path` query parameter is
non-empty and names an existing location of the found service, the handler
answers 404 "Location not found" and the GET/POST/DELETE switch is never
reached; that switch is reachable only with an empty `path` parameter on a
service with exactly one location. -/
theorem c10_handle_backends (lookup : String → Option ServiceInfo)
    (sn sl : String) (m : Method) :
    (∀ srvc loc, sn ≠ "" → lookup sn = some srvc → sl ≠ "" →
      findLocation srvc.locations sl = some loc →
      handleBackends lookup sn sl m = .notFoundLocation) ∧
    (∀ loc m', handleBackends lookup sn sl m = .backendOps loc m' →
      sl = "" ∧ ∃ srvc, lookup sn = some srvc ∧ srvc.locations = [loc] ∧ m' = m) := by
  constructor
  · intro srvc loc hsn hlook hsl hfind
    unfold handleBackends
    simp [hsn, hlook, hfind, hsl]
  · intro loc m' h
    unfold handleBackends at h
    by_cases hsn : sn = ""
    · simp [hsn] at h
    · simp only [hsn, if_neg, reduceIte] at h
      rcases hlu : lookup sn with _ | srvc
      · rw [hlu] at h; simp at h
      · rw [hlu] at h
        simp only at h
        by_cases hcond : findLocation srvc.locations sl = none ∧ sl = ""
        · rw [if_pos hcond] at h
          rcases hlocs : srvc.locations with _ | ⟨l1, rest⟩
          · rw [hlocs] at h; simp at h
          · rcases rest with _ | ⟨l2, rest2⟩
            · rw [hlocs] at h
              simp at h
              exact ⟨hcond.2, srvc, rfl, by rw [hlocs, h.1], h.2.symm⟩
            · rw [hlocs] at h; simp at h
        · rw [if_neg hcond] at h
          simp at h

/-- Claim C10 witness. -/
theorem c10_handle_backends_witness :
    handleBackends
      (fun n => if n = "svc" then some ⟨[⟨"/api/"⟩, ⟨"/web/"⟩]⟩ else none)
      "svc" "/api/" .get = .notFoundLocation :=
  (c10_handle_backends
      (fun n => if n = "svc" then some ⟨[⟨"/api/"⟩, ⟨"/web/"⟩]⟩ else none)
      "svc" "/api/" .get).1 ⟨[⟨"/api/"⟩, ⟨"/web/"⟩]⟩ ⟨"/api/"⟩
    (by decide) (by simp) (by decide) (by simp [findLocation])

/-! ### Claims C6 and C7: the round-robin scan -/

/-- The Go scan loop explores offsets `i, i+1, ...` while fuel remains; it
computes the first acceptable position among `(idx + i + t) % N` for
`t < fuel`. -/
theorem rrScanAux_eq_find (servers : List Server) (idx : Nat)
    (hlen : servers.length ≠ 0) :
    ∀ (fuel i : Nat), rrScanAux servers idx i fuel =
      ((List.range fuel).map (fun t => (idx + i + t) % servers.length)).find?
        (acceptableIdx servers) := by
  intro fuel
  induction fuel with
  | zero => intro i; rfl
  | succ f ih =>
    intro i
    have hidx : (idx + i) % servers.length < servers.length :=
      Nat.mod_lt _ (Nat.pos_of_ne_zero hlen)
    rcases hsv : servers[(idx + i) % servers.length]? with _ | sv
    · rw [List.getElem?_eq_none_iff] at hsv
      omega
    · rw [List.range_succ_eq_map, List.map_cons, List.find?_cons]
      have hhead : acceptableIdx servers ((idx + i + 0) % servers.length) =
          (sv.alive && CanAcceptConnection sv) := by
        simp only [Nat.add_zero, acceptableIdx, hsv]
      rw [hhead]
      unfold rrScanAux
      simp only [hsv]
      by_cases hacc : (sv.alive && CanAcceptConnection sv) = true
      · simp only [hacc, if_pos, reduceIte, Nat.add_zero]
      · have hacc' : (sv.alive && CanAcceptConnection sv) = false := by
          simpa using hacc
        simp only [hacc', Bool.false_eq_true, if_neg, reduceIte]
        rw [ih (i + 1), List.map_map]
        have hfun : (fun t => (idx + (i + 1) + t) % servers.length) =
            ((fun t => (idx + i + t) % servers.length) ∘ Nat.succ) := by
          funext t
          simp only [Function.comp, Nat.succ_eq_add_one]
          congr 1
          omega
        rw [hfun]

/-- The cyclic index walk over one full period is a rotation of `range N`. -/
theorem rot_map (N x : Nat) :
    (List.range N).map (fun t => (x + t) % N) = (List.range N).rotate (x % N) := by
  apply List.ext_getElem?
  intro n
  by_cases hn : n < N
  · have h₁ : n < ((List.range N).map (fun t => (x + t) % N)).length := by
      simpa using hn
    have h₂ : n < ((List.range N).rotate (x % N)).length := by
      simpa [List.length_rotate] using hn
    rw [List.getElem?_eq_getElem h₁, List.getElem?_eq_getElem h₂]
    congr 1
    rw [List.getElem_map, List.getElem_range, List.getElem_rotate]
    simp only [List.length_range, List.getElem_range]
    conv_lhs => rw [Nat.add_comm, Nat.add_mod]
    conv_rhs => rw [Nat.add_mod]
    rw [Nat.mod_mod_of_dvd x dvd_rfl]
  · have h₁ : ((List.range N).map (fun t => (x + t) % N)).length ≤ n := by
      simpa using Nat.le_of_not_lt hn
    have h₂ : ((List.range N).rotate (x % N)).length ≤ n := by
      simpa [List.length_rotate] using Nat.le_of_not_lt hn
    rw [List.getElem?_eq_none_iff.2 h₁, List.getElem?_eq_none_iff.2 h₂]

/-- Over one full period the cyclic walk hits each residue exactly once. -/
theorem count_period (N x j : Nat) (hj : j < N) :
    ((List.range N).map (fun t => (x + t) % N)).count j = 1 := by
  rw [rot_map N x, (List.rotate_perm (List.range N) (x % N)).count_eq]
  exact List.count_eq_one_of_mem (List.nodup_range N) (List.mem_range.mpr hj)

/-- Over `k` full periods the cyclic walk hits each residue exactly `k`
times. -/
theorem count_periods (N x j k : Nat) (hj : j < N) :
    ((List.range (k * N)).map (fun t => (x + t) % N)).count j = k := by
  induction k with
  | zero => simp
  | succ kk ih =>
    have hsplit : (kk + 1) * N = kk * N + N := by ring
    rw [hsplit, List.range_add, List.map_append, List.count_append, ih]
    have hmap : ((List.range N).map (fun t => kk * N + t)).map
        (fun t => (x + t) % N) =
        (List.range N).map (fun t => (x + kk * N + t) % N) := by
      rw [List.map_map]
      congr 1
      funext t
      simp only [Function.comp]
      congr 1
      omega
    rw [hmap, count_period N (x + kk * N) j hj]

/-- Closed form of `NextServer`. -/
theorem NextServer_eq (servers : List Server) (cur : Nat) :
    NextServer servers cur = if servers.length = 0 then (cur, none)
      else ((cur + 1) % UINT64_MOD,
        rrScanAux servers (((cur + 1) % UINT64_MOD) % servers.length) 0
          servers.length) := by
  unfold NextServer
  by_cases h : servers.length = 0 <;> simp [h]

/-- Claim C6: `NextServer` advances the cursor by one and then, starting at
position `(cursor + 1) mod N` and scanning forward cyclically for at most `N`
steps, returns the first backend that is alive and can accept a connection
(ties broken by scan order, i.e. by index); it returns nothing on an empty
snapshot (leaving the cursor untouched, as the code returns before the cursor
write) and exactly when no backend is alive and capacity-available. -/
theorem c6_round_robin_next_server (servers : List Server) (cur : Nat) :
    (servers = [] → NextServer servers cur = (cur, none)) ∧
    (servers ≠ [] → cur + 1 < UINT64_MOD →
      NextServer servers cur =
        (cur + 1, firstAcceptableFrom servers ((cur + 1) % servers.length)) ∧
      (firstAcceptableFrom servers ((cur + 1) % servers.length) = none ↔
        ∀ sv ∈ servers, ¬ (sv.alive = true ∧ CanAcceptConnection sv = true)) ∧
      (∀ j, firstAcceptableFrom servers ((cur + 1) % servers.length) = some j →
        ∃ sv, servers[j]? = some sv ∧ sv.alive = true ∧
          CanAcceptConnection sv = true)) := by
  constructor
  · intro h
    rw [NextServer_eq]
    simp [h]
  · intro hne hcur
    have hlen : servers.length ≠ 0 := by simpa [List.length_eq_zero] using hne
    have hnext : (cur + 1) % UINT64_MOD = cur + 1 := Nat.mod_eq_of_lt hcur
    refine ⟨?_, ?_, ?_⟩
    · rw [NextServer_eq, if_neg hlen, hnext,
        rrScanAux_eq_find servers _ hlen servers.length 0]
      unfold firstAcceptableFrom
      have hfun : (fun t => ((cur + 1) % servers.length + 0 + t) % servers.length) =
          (fun t => ((cur + 1) % servers.length + t) % servers.length) := by
        funext t
        simp
      rw [hfun]
    · unfold firstAcceptableFrom
      rw [List.find?_eq_none]
      constructor
      · intro hnone sv hsv
        obtain ⟨p, hp, hval⟩ := List.getElem_of_mem hsv
        have hpmem : p ∈ (List.range servers.length).map
            (fun t => ((cur + 1) % servers.length + t) % servers.length) := by
          rw [rot_map servers.length _, List.mem_rotate]
          exact List.mem_range.mpr hp
        have hnp := hnone p hpmem
        intro hcontra
        apply hnp
        unfold acceptableIdx
        rw [List.getElem?_eq_getElem hp, hval]
        simp [hcontra.1, hcontra.2]
      · intro hall x hx
        have hxlt : x < servers.length := by
          rw [rot_map _ _, List.mem_rotate, List.mem_range] at hx
          exact hx
        have hnacc := hall _ (List.getElem_mem hxlt)
        unfold acceptableIdx
        rw [List.getElem?_eq_getElem hxlt]
        intro hcontra
        simp at hcontra
        exact hnacc ⟨hcontra.1, hcontra.2⟩
    · intro j hj
      have hp := List.find?_some hj
      unfold acceptableIdx at hp
      rcases hsv : servers[j]? with _ | sv
      · rw [hsv] at hp; cases hp
      · rw [hsv] at hp
        simp at hp
        exact ⟨sv, rfl, hp.1, hp.2⟩

/-- Claim C6 witness: two servers, the first dead, the second alive and below
capacity; from cursor 1 the scan starts at position 0, skips the dead server
and selects position 1. -/
theorem c6_round_robin_next_server_witness :
    NextServer [⟨"x", 1, 0, 0, 2, false⟩, ⟨"y", 1, 0, 0, 2, true⟩] 1 =
      (2, some 1) := by
  have h := (c6_round_robin_next_server
      [⟨"x", 1, 0, 0, 2, false⟩, ⟨"y", 1, 0, 0, 2, true⟩] 1).2
    (by decide) (by decide)
  rw [h.1]
  rfl

theorem acceptableIdx_of_all (servers : List Server)
    (hall : ∀ sv ∈ servers, (sv.alive && CanAcceptConnection sv) = true)
    (p : Nat) (hp : p < servers.length) : acceptableIdx servers p = true := by
  unfold acceptableIdx
  rw [List.getElem?_eq_getElem hp]
  exact hall _ (List.getElem_mem hp)

/-- When the position probed first is acceptable, the scan stops there. -/
theorem rrScanAux_head_acceptable (servers : List Server) (idx i fuel : Nat)
    (h : acceptableIdx servers ((idx + i) % servers.length) = true) :
    rrScanAux servers idx i (fuel + 1) = some ((idx + i) % servers.length) := by
  unfold acceptableIdx at h
  rcases hsv : servers[(idx + i) % servers.length]? with _ | sv
  · rw [hsv] at h; cases h
  · rw [hsv] at h
    have h' : (sv.alive && CanAcceptConnection sv) = true := h
    unfold rrScanAux
    simp only [hsv]
    rw [if_pos h']

/-- Any positive fuel suffices when the first probed position is
acceptable. -/
theorem rrScanAux_pos_head (servers : List Server) (idx i fuel : Nat)
    (hfuel : fuel ≠ 0)
    (h : acceptableIdx servers ((idx + i) % servers.length) = true) :
    rrScanAux servers idx i fuel = some ((idx + i) % servers.length) := by
  cases fuel with
  | zero => exact absurd rfl hfuel
  | succ f => exact rrScanAux_head_acceptable servers idx i f h

/-- With every server alive and below capacity, `NextServer` selects exactly
the position `(cursor + 1) mod N`. -/
theorem NextServer_all_acceptable (servers : List Server)
    (hlen : servers.length ≠ 0)
    (hall : ∀ sv ∈ servers, (sv.alive && CanAcceptConnection sv) = true)
    (cur : Nat) (hcur : cur + 1 < UINT64_MOD) :
    NextServer servers cur = (cur + 1, some ((cur + 1) % servers.length)) := by
  have hpos : 0 < servers.length := Nat.pos_of_ne_zero hlen
  have hnext : (cur + 1) % UINT64_MOD = cur + 1 := Nat.mod_eq_of_lt hcur
  have hidx : (cur + 1) % servers.length < servers.length := Nat.mod_lt _ hpos
  have hmod : ((cur + 1) % servers.length + 0) % servers.length =
      (cur + 1) % servers.length := by
    rw [Nat.add_zero]
    exact Nat.mod_eq_of_lt hidx
  rw [NextServer_eq, if_neg hlen, hnext]
  rw [rrScanAux_pos_head servers _ 0 servers.length hlen
    (by rw [hmod]; exact acceptableIdx_of_all servers hall _ hidx), hmod]

/-- With every server alive and below capacity and no cursor wrap, `m`
consecutive `NextServer` calls from cursor `cur` select positions
`(cur + 1) mod N, (cur + 2) mod N, ...` and leave the cursor at `cur + m`. -/
theorem runNextServer_all_acceptable (servers : List Server)
    (hlen : servers.length ≠ 0)
    (hall : ∀ sv ∈ servers, (sv.alive && CanAcceptConnection sv) = true) :
    ∀ (m cur : Nat), cur + m < UINT64_MOD →
      runNextServer servers cur m = (cur + m,
        (List.range m).map (fun t => some ((cur + 1 + t) % servers.length))) := by
  intro m
  induction m with
  | zero => intro cur h; simp [runNextServer]
  | succ mm ih =>
    intro cur h
    have hcur : cur + 1 < UINT64_MOD := by omega
    unfold runNextServer
    rw [NextServer_all_acceptable servers hlen hall cur hcur]
    show ((runNextServer servers (cur + 1) mm).1,
        some ((cur + 1) % servers.length) :: (runNextServer servers (cur + 1) mm).2) = _
    rw [ih (cur + 1) (by omega)]
    show (cur + 1 + mm, some ((cur + 1) % servers.length) ::
        (List.range mm).map (fun t => some ((cur + 1 + 1 + t) % servers.length))) = _
    have hc : cur + 1 + mm = cur + (mm + 1) := by omega
    rw [hc, List.range_succ_eq_map, List.map_cons, List.map_map]
    have hfun : (fun t => some ((cur + 1 + 1 + t) % servers.length)) =
        ((fun t => some ((cur + 1 + t) % servers.length)) ∘ Nat.succ) := by
      funext t
      simp only [Function.comp, Nat.succ_eq_add_one]
      congr 2
      omega
    rw [hfun]

/-- Counting an element through the `some` wrapper. -/
theorem count_map_some (l : List Nat) (j : Nat) :
    (l.map some).count (some j) = l.count j := by
  induction l with
  | nil => rfl
  | cons x xs ih =>
    simp only [List.map_cons, List.count_cons, ih]
    by_cases hx : x = j <;> simp [hx]

/-- Claim C7: on a round-robin pool whose `N` backends are all alive and
below capacity throughout (`NextServer` itself changes only the cursor), any
sequence of `k * N` consecutive `NextServer` calls with no concurrent
interleaving selects each backend position exactly `k` times. The cursor is
assumed not to wrap around 2^64 inside the window, matching the claim's
sequential reading. -/
theorem c7_round_robin_fairness (servers : List Server) (k cur j : Nat)
    (hne : servers ≠ [])
    (hall : ∀ sv ∈ servers, sv.alive = true ∧ CanAcceptConnection sv = true)
    (hnowrap : cur + k * servers.length < UINT64_MOD)
    (hj : j < servers.length) :
    ((runNextServer servers cur (k * servers.length)).2).count (some j) = k := by
  have hlen : servers.length ≠ 0 := by simpa [List.length_eq_zero] using hne
  have hall' : ∀ sv ∈ servers, (sv.alive && CanAcceptConnection sv) = true := by
    intro sv hsv
    simp [(hall sv hsv).1, (hall sv hsv).2]
  rw [runNextServer_all_acceptable servers hlen hall' (k * servers.length) cur hnowrap]
  show ((List.range (k * servers.length)).map
      (fun t => some ((cur + 1 + t) % servers.length))).count (some j) = k
  have hcomp : (fun t => some ((cur + 1 + t) % servers.length)) =
      (some ∘ fun t => (cur + 1 + t) % servers.length) := rfl
  rw [hcomp, ← List.map_map, count_map_some]
  exact count_periods servers.length (cur + 1) j k hj

/-- Claim C7 witness: two alive, below-capacity servers; 2·2 calls from
cursor 0 select each position exactly twice. -/
theorem c7_round_robin_fairness_witness :
    ((runNextServer [⟨"x", 1, 0, 0, 2, true⟩, ⟨"y", 1, 0, 0, 2, true⟩] 0
        (2 * (([⟨"x", 1, 0, 0, 2, true⟩, ⟨"y", 1, 0, 0, 2, true⟩] : List Server).length))).2).count
      (some 0) = 2 ∧
    ((runNextServer [⟨"x", 1, 0, 0, 2, true⟩, ⟨"y", 1, 0, 0, 2, true⟩] 0
        (2 * (([⟨"x", 1, 0, 0, 2, true⟩, ⟨"y", 1, 0, 0, 2, true⟩] : List Server).length))).2).count
      (some 1) = 2 :=
  ⟨c7_round_robin_fairness [⟨"x", 1, 0, 0, 2, true⟩, ⟨"y", 1, 0, 0, 2, true⟩] 2 0 0
      (by decide) (by decide) (by decide) (by decide),
   c7_round_robin_fairness [⟨"x", 1, 0, 0, 2, true⟩, ⟨"y", 1, 0, 0, 2, true⟩] 2 0 1
      (by decide) (by decide) (by decide) (by decide)⟩

end LB
